import Mathlib

/-!
Shallow embedding of `src/ref-farming/src/farm_seed.rs`.

The module stores, per stakeable seed, the aggregate staked `amount`, the
set of farms accepting the seed, a classification (`FT`/`MFT`/`NFT`), a
versioned envelope for lazy schema upgrade, and a read-only external
projection (`SeedInfo`).

Modelling conventions:
- `Balance` (`u128`) becomes `Nat`; addition wraps modulo `2 ^ 128` at the
  128-bit boundary (the source gives no overflow policy beyond the 128-bit
  domain, so theorems about sequences assume no overflow explicitly).
- A Rust panic (`assert!` failure, `unimplemented!()`) becomes `none`: the
  surrounding transaction aborts and no successor state exists, so the
  pre-call state is the only observable one.
- `HashSet<FarmId>` becomes a `List String` of its elements, and
  `HashMap<NFTTokenId, U128>` an association list `List (String × Nat)`;
  the claims only inspect presence, emptiness and preservation of these.
- In-place mutation becomes explicit state passing: a method on `&mut self`
  returns the updated record (paired with the Rust return value).
-/

/-- The `SeedType` enum: a seed is a fungible token, a multi fungible
token, or a non fungible token. -/
inductive SeedType where
  | FT : SeedType
  | MFT : SeedType
  | NFT : SeedType
deriving DecidableEq, Repr

/-- `FarmSeedMetadata`: optional display title and media. -/
structure FarmSeedMetadata where
  title : Option String
  media : Option String
deriving DecidableEq, Repr

/-- The `FarmSeed` record (`SeedLedgerEntry` in the spec). -/
structure FarmSeed where
  seed_id : String
  seed_type : SeedType
  farms : List String
  next_index : Nat
  amount : Nat
  min_deposit : Nat
  nft_balance : Option (List (String × Nat))
  metadata : Option FarmSeedMetadata
deriving DecidableEq, Repr

/-- Helper for `parse_seed_id`: split a character list at the first `'#'`,
returning the pieces before and after it, or `none` when no `'#'` occurs. -/
def breakHash : List Char → Option (List Char × List Char)
  | [] => none
  | c :: rest =>
    if c = '#' then some ([], rest)
    else
      match breakHash rest with
      | none => none
      | some (l, r) => some (c :: l, r)

/-- Modelled from the spec: `parse_seed_id` lives in `crate::utils`, which is
not among the provided sources. Per the spec (§4.2), the identifier is split
on the fixed separator into `(token_id, token_index)`; when no separator is
present, `token_index` equals `token_id`. -/
def parse_seed_id (seed_id : String) : String × String :=
  match breakHash seed_id.toList with
  | none => (seed_id, seed_id)
  | some (l, r) => (String.mk l, String.mk r)

/-- `FarmSeed::new`: classify the seed and initialise the record with
`amount = 0`, `next_index = 0` and no farms. -/
def FarmSeed.new (seed_id : String) (min_deposit : Nat)
    (nft_balance : Option (List (String × Nat)))
    (metadata : Option FarmSeedMetadata) : FarmSeed :=
  let p := parse_seed_id seed_id
  let seed_type : SeedType :=
    if nft_balance.isSome then SeedType.NFT
    else if p.1 = p.2 then SeedType.FT
    else SeedType.MFT
  { seed_id := seed_id
    seed_type := seed_type
    farms := []
    next_index := 0
    amount := 0
    min_deposit := min_deposit
    nft_balance := nft_balance
    metadata := metadata }

/-- `FarmSeed::add_amount`: `self.amount += amount` on the 128-bit balance. -/
def FarmSeed.add_amount (fs : FarmSeed) (amount : Nat) : FarmSeed :=
  { fs with amount := (fs.amount + amount) % 2 ^ 128 }

/-- `FarmSeed::sub_amount`: asserts `self.amount >= amount` (panic on
violation, modelled as `none`), then decrements and returns the remaining
amount together with the updated record. -/
def FarmSeed.sub_amount (fs : FarmSeed) (amount : Nat) :
    Option (FarmSeed × Nat) :=
  if fs.amount ≥ amount then
    some ({ fs with amount := fs.amount - amount }, fs.amount - amount)
  else none

/-- The `VersionedFarmSeed` envelope; today exactly one tag, `V101`. -/
inductive VersionedFarmSeed where
  | V101 : FarmSeed → VersionedFarmSeed
deriving DecidableEq, Repr

/-- `VersionedFarmSeed::new`: wrap a freshly constructed `FarmSeed` in the
current tag. -/
def VersionedFarmSeed.new (seed_id : String) (min_deposit : Nat)
    (nft_balance : Option (List (String × Nat)))
    (metadata : Option FarmSeedMetadata) : VersionedFarmSeed :=
  VersionedFarmSeed.V101 (FarmSeed.new seed_id min_deposit nft_balance metadata)

/-- `VersionedFarmSeed::upgrade`: migrate to the current version; the
current tag is returned unchanged. -/
def VersionedFarmSeed.upgrade : VersionedFarmSeed → VersionedFarmSeed
  | VersionedFarmSeed.V101 farm_seed => VersionedFarmSeed.V101 farm_seed

/-- `VersionedFarmSeed::need_upgrade`: `false` on the current tag; the
source's `_ => true` fallback is unreachable with a single variant. -/
def VersionedFarmSeed.need_upgrade : VersionedFarmSeed → Bool
  | VersionedFarmSeed.V101 _ => false

/-- `VersionedFarmSeed::get_ref`: project the current-tag entry; the
source's `_ => unimplemented!()` fallback (a panic) would be `none`, but is
unreachable with a single variant. -/
def VersionedFarmSeed.get_ref : VersionedFarmSeed → Option FarmSeed
  | VersionedFarmSeed.V101 farm_seed => some farm_seed

/-- `VersionedFarmSeed::get_ref_mut`: identical projection in the pure
embedding (the mutable reference is modelled by returning the entry). -/
def VersionedFarmSeed.get_ref_mut : VersionedFarmSeed → Option FarmSeed
  | VersionedFarmSeed.V101 farm_seed => some farm_seed

/-- The external `SeedInfo` projection (`SeedView` in the spec). -/
structure SeedInfo where
  seed_id : String
  seed_type : String
  farms : List String
  next_index : Nat
  amount : Nat
  min_deposit : Nat
  nft_balance : Option (List (String × Nat))
  title : Option String
  media : Option String
deriving DecidableEq, Repr

/-- `impl From<&FarmSeed> for SeedInfo`: render the classification as a
string and default `title`/`media` to `""` when metadata or the individual
field is absent. -/
def SeedInfo.fromFarmSeed (fs : FarmSeed) : SeedInfo :=
  let seed_type : String :=
    match fs.seed_type with
    | SeedType.FT => "FT"
    | SeedType.NFT => "NFT"
    | SeedType.MFT => "MFT"
  match fs.metadata with
  | some seed_metadata =>
    { seed_id := fs.seed_id
      seed_type := seed_type
      next_index := fs.next_index
      amount := fs.amount
      min_deposit := fs.min_deposit
      farms := fs.farms.map (fun key => key)
      nft_balance := fs.nft_balance
      title := some (seed_metadata.title.getD "")
      media := some (seed_metadata.media.getD "") }
  | none =>
    { seed_id := fs.seed_id
      seed_type := seed_type
      next_index := fs.next_index
      amount := fs.amount
      min_deposit := fs.min_deposit
      farms := fs.farms.map (fun key => key)
      nft_balance := fs.nft_balance
      title := some ""
      media := some "" }

/-- An accounting call on a `FarmSeed`: `add_amount` or `sub_amount`. -/
inductive SeedOp where
  | add : Nat → SeedOp
  | sub : Nat → SeedOp
deriving DecidableEq, Repr

/-- Run a sequence of accounting calls; a failed `sub_amount` aborts the
whole run. -/
def runOps : FarmSeed → List SeedOp → Option FarmSeed
  | fs, [] => some fs
  | fs, SeedOp.add a :: rest => runOps (fs.add_amount a) rest
  | fs, SeedOp.sub b :: rest =>
    match fs.sub_amount b with
    | none => none
    | some (fs2, _) => runOps fs2 rest

/-- Sum of the amounts added by a call sequence. -/
def addsSum : List SeedOp → Nat
  | [] => 0
  | SeedOp.add a :: rest => a + addsSum rest
  | SeedOp.sub _ :: rest => addsSum rest

/-- Sum of the amounts subtracted by a call sequence. -/
def subsSum : List SeedOp → Nat
  | [] => 0
  | SeedOp.add _ :: rest => subsSum rest
  | SeedOp.sub b :: rest => b + subsSum rest

/-- Starting from balance `c`, every prefix of the call sequence keeps the
running balance non-negative (each subtraction is covered) and below
`2 ^ 128` (no 128-bit overflow at any addition). -/
def validOps : Nat → List SeedOp → Prop
  | _, [] => True
  | c, SeedOp.add a :: rest => c + a < 2 ^ 128 ∧ validOps (c + a) rest
  | c, SeedOp.sub b :: rest => b ≤ c ∧ validOps (c - b) rest

instance instDecValidOps : ∀ (c : Nat) (ops : List SeedOp), Decidable (validOps c ops)
  | _, [] => isTrue trivial
  | c, SeedOp.add a :: rest =>
    @instDecidableAnd _ _ (Nat.decLt _ _) (instDecValidOps (c + a) rest)
  | c, SeedOp.sub b :: rest =>
    @instDecidableAnd _ _ (Nat.decLe _ _) (instDecValidOps (c - b) rest)

/-! ## Helper lemmas -/

/-- A valid call sequence stays valid on any prefix. -/
theorem validOps_front :
    ∀ (pre suf : List SeedOp) (c : Nat), validOps c (pre ++ suf) → validOps c pre := by
  intro pre
  induction pre with
  | nil => intro suf c _; trivial
  | cons op rest ih =>
    intro suf c h
    cases op with
    | add a => exact ⟨h.1, ih suf _ h.2⟩
    | sub b => exact ⟨h.1, ih suf _ h.2⟩

/-- Running a valid call sequence never aborts, and the final amount is the
starting amount plus all additions minus all subtractions, with no
truncation. -/
theorem runOps_valid :
    ∀ (ops : List SeedOp) (fs : FarmSeed), validOps fs.amount ops →
      ∃ fs2, runOps fs ops = some fs2 ∧
        fs2.amount + subsSum ops = fs.amount + addsSum ops := by
  intro ops
  induction ops with
  | nil =>
    intro fs _
    exact ⟨fs, rfl, by simp [subsSum, addsSum]⟩
  | cons op rest ih =>
    intro fs h
    cases op with
    | add a =>
      obtain ⟨hlt, hrest⟩ := h
      have hmod : (fs.amount + a) % 2 ^ 128 = fs.amount + a := Nat.mod_eq_of_lt hlt
      have hva : validOps (fs.add_amount a).amount rest := by
        show validOps ((fs.amount + a) % 2 ^ 128) rest
        rw [hmod]; exact hrest
      obtain ⟨fs2, hrun, hsum⟩ := ih (fs.add_amount a) hva
      refine ⟨fs2, by simpa [runOps] using hrun, ?_⟩
      simp only [FarmSeed.add_amount, hmod] at hsum
      simp only [addsSum, subsSum]
      omega
    | sub b =>
      obtain ⟨hle, hrest⟩ := h
      have hsub : fs.sub_amount b =
          some ({ fs with amount := fs.amount - b }, fs.amount - b) := by
        simp [FarmSeed.sub_amount, hle]
      have hvs : validOps ({ fs with amount := fs.amount - b } : FarmSeed).amount rest := hrest
      obtain ⟨fs2, hrun, hsum⟩ := ih _ hvs
      refine ⟨fs2, ?_, ?_⟩
      · simp [runOps, hsub, hrun]
      · simp only at hsum
        simp only [addsSum, subsSum]
        omega

/-! ## Claim theorems -/

/-- C1: for every `FarmSeed` and every requested amount strictly greater
than the current `amount`, `sub_amount` aborts fatally (the panic is
modelled as `none`): no updated record is produced, so the pre-call record
is the only observable state afterwards. -/
theorem sub_amount_over_request_aborts (fs : FarmSeed) (amount : Nat)
    (h : fs.amount < amount) : fs.sub_amount amount = none := by
  simp only [FarmSeed.sub_amount, ge_iff_le, ite_eq_right_iff]
  intro hle
  omega

/-- Witness for C1 at a concrete input: a fresh seed holds amount `0`, so
requesting `1` aborts. -/
theorem sub_amount_over_request_aborts_witness :
    (FarmSeed.new "usdc.near" 100 none none).sub_amount 1 = none :=
  sub_amount_over_request_aborts (FarmSeed.new "usdc.near" 100 none none) 1
    (by decide)

/-- C2: for every `FarmSeed` and every requested amount at most the current
`amount`, `sub_amount` sets `amount` to the old amount minus the request and
returns that new value; when the old amount is `500` and the request is
`200`, the result is `300` both as return value and as stored amount. -/
theorem sub_amount_success (fs : FarmSeed) (amount : Nat)
    (h : amount ≤ fs.amount) :
    fs.sub_amount amount =
      some ({ fs with amount := fs.amount - amount }, fs.amount - amount) ∧
    (fs.amount = 500 → amount = 200 →
      fs.sub_amount amount = some ({ fs with amount := 300 }, 300)) := by
  constructor
  · simp [FarmSeed.sub_amount, h]
  · intro h500 h200
    subst h200
    simp [FarmSeed.sub_amount, h, h500]

/-- Witness for C2 at a concrete input: after `add_amount 500` on a fresh
seed, `sub_amount 200` returns `300` and stores `300`. -/
theorem sub_amount_success_witness :
    ((FarmSeed.new "usdc.near" 100 none none).add_amount 500).sub_amount 200 =
      some ({ seed_id := "usdc.near", seed_type := SeedType.FT, farms := [],
              next_index := 0, amount := 300, min_deposit := 100,
              nft_balance := none, metadata := none }, 300) :=
  ((sub_amount_success ((FarmSeed.new "usdc.near" 100 none none).add_amount 500)
      200 (by decide)).1).trans (by decide)

/-- C3: for every sequence of `add_amount`/`sub_amount` calls on a freshly
constructed `FarmSeed` whose every prefix keeps the running balance
non-negative and below `2 ^ 128` (no overflow), the run never aborts, the
final amount is exactly the sum of additions minus the sum of subtractions,
and at every intermediate point the amount is the (non-negative) prefix
difference. -/
theorem amount_conservation (sid : String) (md : Nat)
    (nb : Option (List (String × Nat))) (mt : Option FarmSeedMetadata)
    (ops : List SeedOp) (h : validOps 0 ops) :
    subsSum ops ≤ addsSum ops ∧
    (runOps (FarmSeed.new sid md nb mt) ops).map FarmSeed.amount =
      some (addsSum ops - subsSum ops) ∧
    ∀ pre suf, ops = pre ++ suf →
      subsSum pre ≤ addsSum pre ∧
      (runOps (FarmSeed.new sid md nb mt) pre).map FarmSeed.amount =
        some (addsSum pre - subsSum pre) := by
  have hnew : (FarmSeed.new sid md nb mt).amount = 0 := rfl
  have main : ∀ ops2 : List SeedOp, validOps 0 ops2 →
      subsSum ops2 ≤ addsSum ops2 ∧
      (runOps (FarmSeed.new sid md nb mt) ops2).map FarmSeed.amount =
        some (addsSum ops2 - subsSum ops2) := by
    intro ops2 h2
    obtain ⟨fs2, hrun, hsum⟩ :=
      runOps_valid ops2 (FarmSeed.new sid md nb mt) (by rw [hnew]; exact h2)
    rw [hnew] at hsum
    refine ⟨by omega, ?_⟩
    rw [hrun]
    show some fs2.amount = some (addsSum ops2 - subsSum ops2)
    exact congrArg some (by omega)
  obtain ⟨h1, h2⟩ := main ops h
  refine ⟨h1, h2, ?_⟩
  intro pre suf hsplit
  exact main pre (validOps_front pre suf 0 (hsplit ▸ h))

/-- Witness for C3 at a concrete input: the sequence
`add 500, sub 200, sub 300` is valid from a fresh seed and ends with amount
`0 = 500 - (200 + 300)`. -/
theorem amount_conservation_witness :
    validOps 0 [SeedOp.add 500, SeedOp.sub 200, SeedOp.sub 300] ∧
    (runOps (FarmSeed.new "usdc.near" 100 none none)
        [SeedOp.add 500, SeedOp.sub 200, SeedOp.sub 300]).map FarmSeed.amount =
      some (addsSum [SeedOp.add 500, SeedOp.sub 200, SeedOp.sub 300] -
        subsSum [SeedOp.add 500, SeedOp.sub 200, SeedOp.sub 300]) :=
  ⟨by decide,
   (amount_conservation "usdc.near" 100 none none
      [SeedOp.add 500, SeedOp.sub 200, SeedOp.sub 300] (by decide)).2.1⟩

/-- C4: classification at construction. A present `nft_balance` forces
`NFT` regardless of identifier shape; otherwise the identifier is parsed
into `(token_id, token_index)` and equal components give `FT`, different
components give `MFT`. Concretely, a bare identifier gives `FT`, a
composite one gives `MFT`, and either with a balance map gives `NFT`. -/
theorem seed_classification (sid : String) (md : Nat)
    (nb : Option (List (String × Nat))) (mt : Option FarmSeedMetadata) :
    (nb.isSome = true → (FarmSeed.new sid md nb mt).seed_type = SeedType.NFT) ∧
    ((FarmSeed.new sid md none mt).seed_type =
      if (parse_seed_id sid).1 = (parse_seed_id sid).2 then SeedType.FT
      else SeedType.MFT) ∧
    (FarmSeed.new "token.near" md none mt).seed_type = SeedType.FT ∧
    (FarmSeed.new "token.near#3" md none mt).seed_type = SeedType.MFT ∧
    (FarmSeed.new "token.near" md (some [("t", 1)]) mt).seed_type =
      SeedType.NFT ∧
    (FarmSeed.new "token.near#3" md (some [("t", 1)]) mt).seed_type =
      SeedType.NFT := by
  refine ⟨?_, ?_, ?_, ?_, rfl, rfl⟩
  · intro h
    simp [FarmSeed.new, h]
  · simp [FarmSeed.new]
  · have : ((parse_seed_id "token.near").1 = (parse_seed_id "token.near").2) :=
      by decide
    simp [FarmSeed.new, this]
  · have : ¬ ((parse_seed_id "token.near#3").1 =
        (parse_seed_id "token.near#3").2) := by decide
    simp [FarmSeed.new, this]

/-- Witness for C4 at a concrete input: a supplied balance map on a
composite identifier still classifies as `NFT`. -/
theorem seed_classification_witness :
    (some [("t", 1)] : Option (List (String × Nat))).isSome = true ∧
    (FarmSeed.new "token.near#3" 0 (some [("t", 1)]) none).seed_type =
      SeedType.NFT :=
  ⟨by decide,
   (seed_classification "token.near#3" 0 (some [("t", 1)]) none).1 (by decide)⟩

/-- C5: `upgrade` is idempotent on every `VersionedFarmSeed`, and
`need_upgrade` is `false` immediately after `upgrade`. -/
theorem upgrade_idempotent (x : VersionedFarmSeed) :
    x.upgrade.upgrade = x.upgrade ∧ x.upgrade.need_upgrade = false := by
  cases x
  exact ⟨rfl, rfl⟩

/-- C6: on the current tag `V101`, `get_ref` and `get_ref_mut` return the
wrapped `FarmSeed`; after `upgrade` has normalised the envelope, neither
can reach the fatal (`none`) branch. -/
theorem get_ref_current_tag (fs : FarmSeed) (v : VersionedFarmSeed) :
    (VersionedFarmSeed.V101 fs).get_ref = some fs ∧
    (VersionedFarmSeed.V101 fs).get_ref_mut = some fs ∧
    v.upgrade.get_ref.isSome = true ∧
    v.upgrade.get_ref_mut.isSome = true := by
  cases v
  exact ⟨rfl, rfl, rfl, rfl⟩

/-- C7: `FarmSeed::new` is total (a Lean function) and, for every input,
yields `amount = 0`, `next_index = 0`, empty `farms`, the given `seed_id`
and `min_deposit`, and the classified `seed_type`. -/
theorem new_initialises_fields (sid : String) (md : Nat)
    (nb : Option (List (String × Nat))) (mt : Option FarmSeedMetadata) :
    (FarmSeed.new sid md nb mt).amount = 0 ∧
    (FarmSeed.new sid md nb mt).next_index = 0 ∧
    (FarmSeed.new sid md nb mt).farms = [] ∧
    (FarmSeed.new sid md nb mt).seed_id = sid ∧
    (FarmSeed.new sid md nb mt).min_deposit = md ∧
    (FarmSeed.new sid md nb mt).nft_balance = nb ∧
    (FarmSeed.new sid md nb mt).metadata = mt ∧
    (FarmSeed.new sid md nb mt).seed_type =
      (if nb.isSome then SeedType.NFT
       else if (parse_seed_id sid).1 = (parse_seed_id sid).2 then SeedType.FT
       else SeedType.MFT) :=
  ⟨rfl, rfl, rfl, rfl, rfl, rfl, rfl, rfl⟩

/-- C8: the `SeedInfo` projection never leaves `title` or `media` absent:
they equal the metadata fields verbatim when metadata and the field are
present, and the empty string when metadata or the individual field is
absent. -/
theorem seed_info_title_media (fs : FarmSeed) :
    (SeedInfo.fromFarmSeed fs).title.isSome = true ∧
    (SeedInfo.fromFarmSeed fs).media.isSome = true ∧
    (∀ md t, fs.metadata = some md → md.title = some t →
      (SeedInfo.fromFarmSeed fs).title = some t) ∧
    (∀ md m, fs.metadata = some md → md.media = some m →
      (SeedInfo.fromFarmSeed fs).media = some m) ∧
    (∀ md, fs.metadata = some md → md.title = none →
      (SeedInfo.fromFarmSeed fs).title = some "") ∧
    (∀ md, fs.metadata = some md → md.media = none →
      (SeedInfo.fromFarmSeed fs).media = some "") ∧
    (fs.metadata = none →
      (SeedInfo.fromFarmSeed fs).title = some "" ∧
      (SeedInfo.fromFarmSeed fs).media = some "") := by
  cases hm : fs.metadata with
  | none =>
    refine ⟨?_, ?_, ?_, ?_, ?_, ?_, ?_⟩ <;>
      simp [SeedInfo.fromFarmSeed, hm]
  | some md =>
    refine ⟨?_, ?_, ?_, ?_, ?_, ?_, ?_⟩ <;>
      simp only [SeedInfo.fromFarmSeed, hm] <;>
      intros <;>
      simp_all

/-- Witness for C8 at a concrete input: a present title is kept verbatim
and an absent media defaults to the empty string. -/
theorem seed_info_title_media_witness :
    (SeedInfo.fromFarmSeed (FarmSeed.new "token.near" 0 none
      (some { title := some "Title", media := none }))).title = some "Title" ∧
    (SeedInfo.fromFarmSeed (FarmSeed.new "token.near" 0 none
      (some { title := some "Title", media := none }))).media = some "" :=
  ⟨(seed_info_title_media (FarmSeed.new "token.near" 0 none
      (some { title := some "Title", media := none }))).2.2.1
    { title := some "Title", media := none } "Title" rfl rfl,
   (seed_info_title_media (FarmSeed.new "token.near" 0 none
      (some { title := some "Title", media := none }))).2.2.2.2.2.1
    { title := some "Title", media := none } rfl rfl⟩

/-- C9: `new` establishes `seed_type = NFT` iff `nft_balance` is present,
and the two accounting operations mutate only `amount`: the record after
`add_amount`, and the record returned by a successful `sub_amount`, differ
from the original in no field but `amount` (so `seed_id`, `seed_type`,
`farms`, `next_index`, `min_deposit`, `nft_balance`, `metadata`, and hence
the NFT-iff-balance invariant, are preserved). -/
theorem operations_preserve_invariants (sid : String) (md : Nat)
    (nb : Option (List (String × Nat))) (mt : Option FarmSeedMetadata)
    (fs : FarmSeed) (a b : Nat) (fs2 : FarmSeed) (r : Nat)
    (h : fs.sub_amount b = some (fs2, r)) :
    ((FarmSeed.new sid md nb mt).seed_type = SeedType.NFT ↔
      nb.isSome = true) ∧
    fs.add_amount a = { fs with amount := (fs.add_amount a).amount } ∧
    fs2 = { fs with amount := fs2.amount } := by
  refine ⟨?_, rfl, ?_⟩
  · constructor
    · intro hty
      by_contra hns
      have hnone : nb = none := by
        cases nb with
        | none => rfl
        | some l => simp at hns
      subst hnone
      simp only [FarmSeed.new, Option.isSome_none] at hty
      by_cases hp : (parse_seed_id sid).1 = (parse_seed_id sid).2
      · rw [if_neg (by simp), if_pos hp] at hty
        exact SeedType.noConfusion hty
      · rw [if_neg (by simp), if_neg hp] at hty
        exact SeedType.noConfusion hty
    · intro hs
      simp [FarmSeed.new, hs]
  · simp only [FarmSeed.sub_amount] at h
    by_cases hge : fs.amount ≥ b
    · rw [if_pos hge] at h
      injection h with h1
      injection h1 with h2 h3
      subst h2
      rfl
    · rw [if_neg hge] at h
      exact Option.noConfusion h

/-- A concrete record holding amount `500`, used by the C9 witness. -/
def seedBefore : FarmSeed :=
  { seed_id := "usdc.near", seed_type := SeedType.FT, farms := [],
    next_index := 0, amount := 500, min_deposit := 100,
    nft_balance := none, metadata := none }

/-- The record `seedBefore` after `sub_amount 200`, used by the C9 witness. -/
def seedAfter : FarmSeed :=
  { seed_id := "usdc.near", seed_type := SeedType.FT, farms := [],
    next_index := 0, amount := 300, min_deposit := 100,
    nft_balance := none, metadata := none }

/-- Witness for C9 at a concrete input: subtracting `200` from a record
holding `500` changes only the `amount` field. -/
theorem operations_preserve_invariants_witness :
    seedAfter = { seedBefore with amount := seedAfter.amount } :=
  (operations_preserve_invariants "usdc.near" 100 none none
    seedBefore 0 200 seedAfter 300 (by decide)).2.2

/-- C10: with `V101` the only variant, every constructible
`VersionedFarmSeed` reports `need_upgrade = false`, and `get_ref` and
`get_ref_mut` never reach their fatal branch. -/
theorem single_variant_never_aborts (v : VersionedFarmSeed) :
    v.need_upgrade = false ∧
    v.get_ref.isSome = true ∧
    v.get_ref_mut.isSome = true := by
  cases v
  exact ⟨rfl, rfl, rfl⟩
